import Mathlib

/-!
Shallow embedding of the request/response protocol layer and the cached
collection model of the qubes-core-admin-client library
(`qubesadmin/app.py`, `qubesadmin/storage.py`), together with proofs of
the specification claims about it.

Python values are modelled as follows: `bytes` values are `List Nat`
(one entry per byte), `str` values are Lean `String` (the daemon protocol
is ASCII), `None`-able arguments are `Option`, raised exceptions are the
`Except` error branch, and the I/O a call performs (bytes written to the
qubesd socket, subprocesses spawned, whether the caller-supplied payload
stream was closed) is returned as an explicit effect record.
-/

/-- Byte encoding of an ASCII string: Python `str.encode('ascii')`,
one byte per character. -/
def strBytes (s : String) : List Nat := s.data.map Char.toNat

/-- Python truthiness of a `bytes`-or-`None` value: `None` and the empty
byte string `b''` are falsy, every non-empty byte string is truthy.
`QubesLocal.qubesd_call` and `QubesRemote.qubesd_call` test
`if payload and payload_stream`, i.e. truthiness, not `is not None`. -/
def bytesTruthy : Option (List Nat) → Bool
  | some (_ :: _) => true
  | _ => false

/-- Split a list at every occurrence of `sep` (Python `list.split(sep)`
semantics: `n` separators produce `n + 1` groups, empty groups kept). -/
def splitListOn {α : Type} [DecidableEq α] (sep : α) : List α → List (List α)
  | [] => [[]]
  | c :: rest =>
    match splitListOn sep rest with
    | [] => [[]]
    | grp :: grps => if c = sep then [] :: grp :: grps else (c :: grp) :: grps

/-- Decode a byte list as an ASCII string. -/
def asciiStr (l : List Nat) : String := ⟨l.map Char.ofNat⟩

/-- Python exceptions raised by the modelled code paths. -/
inductive PyErr where
  /-- `ValueError` -/
  | valueError (msg : String)
  /-- `KeyError` -/
  | keyError (key : String)
  /-- `qubesadmin.exc.QubesDaemonCommunicationError` -/
  | daemonCommunicationError (msg : String)
  /-- `qubesadmin.exc.QubesException(fmt, arg)` with one `%s` argument -/
  | qubesException (fmt : String) (arg : String)
  /-- a daemon-reported error (status byte `'2'`), carrying the reported
  error class name and message -/
  | daemonError (cls : String) (msg : String)
  /-- a protocol-violation failure (malformed response framing) -/
  | protocolError
  /-- a socket-level `IOError` -/
  | ioError
deriving DecidableEq, Repr

/-- Python `%`-formatting of a format string against one `%s` argument:
the first `%s` is replaced by the argument. -/
def pyPercentFormatAux (arg : String) : List Char → List Char
  | [] => []
  | '%' :: 's' :: rest => arg.data ++ rest
  | c :: rest => c :: pyPercentFormatAux arg rest

/-- Modelled from the spec: the message text carried by each exception.
`qubesadmin/exc.py` is not among the provided sources; per §4.3/§7 a
nonzero-exit communication failure's message includes the captured stderr
text, which the source passes as the `%s` argument of
`QubesException('Service call error: %s', stderr.decode())`. -/
def PyErr.message : PyErr → String
  | .valueError m => m
  | .keyError k => k
  | .daemonCommunicationError m => m
  | .qubesException fmt arg => ⟨pyPercentFormatAux arg fmt.data⟩
  | .daemonError _ m => m
  | .protocolError => "Protocol error in qubesd response"
  | .ioError => "I/O error"

/-- Modelled from the spec: `_parse_qubesd_response` lives in
`qubesadmin/base.py`, which is not among the provided sources. Per §4.1:
the response must begin with exactly one status character followed by NUL;
`'0'` (byte 48) returns everything after that NUL verbatim as the success
body; `'2'` (byte 50) splits the rest on NUL into at least an
error-class-name field and a message field (remaining fields ignored) and
yields a structured daemon error; any other status byte or missing NUL is
a protocol-violation failure. -/
def parseQubesdResponse (resp : List Nat) : Except PyErr (List Nat) :=
  match resp with
  | 48 :: 0 :: body => .ok body
  | 50 :: 0 :: body =>
    match splitListOn 0 body with
    | cls :: msg :: _ => .error (.daemonError (asciiStr cls) (asciiStr msg))
    | _ => .error .protocolError
  | _ => .error .protocolError

/-- One spawned subprocess: its argv (entries are `Option` because the
source builds `[method_path, arg]` where `arg` may be `None`) and whether
its standard input was attached to the caller-supplied payload stream. -/
structure SpawnRec where
  argv : List (Option String)
  stdinFromStream : Bool
deriving DecidableEq, Repr

/-- Environment a `QubesLocal.qubesd_call` runs against: whether the
per-method qrexec service executable exists under the services directory,
the stdout captured from that executable when spawned, whether connecting
to the qubesd socket succeeds, and the bytes qubesd answers on the
socket. -/
structure LocalEnv where
  serviceExists : String → Bool
  serviceOutput : List Nat
  connectOk : Bool
  socketResponse : List Nat

/-- Observable I/O effects of one `QubesLocal.qubesd_call`. -/
structure LocalEffects where
  /-- was the caller-supplied payload stream closed? -/
  streamClosed : Bool
  /-- subprocesses spawned -/
  spawned : List SpawnRec
  /-- bytes written to the qubesd socket, in order -/
  socketBytes : List Nat
deriving DecidableEq, Repr

/-- `QubesLocal.qubesd_call` (`qubesadmin/app.py` lines 340-397): the
local-socket transport. `payload_stream : Bool` records whether a payload
stream was supplied (a Python file object is always truthy). The streamed
path spawns `[method_path, arg]` with stdin attached to the stream, closes
the stream, and parses the captured stdout; the socket path writes the
four NUL-terminated fields `dom0`, method, dest, arg (a `None` field
contributes only its NUL) followed by the payload bytes, and parses the
bytes read back. The executable path under `QREXEC_SERVICES_DIR` is
abbreviated to the method name (`qubesadmin/config.py` holds only the
directory constant). -/
def QubesLocal.qubesd_call (env : LocalEnv) (dest method : String)
    (arg : Option String) (payload : Option (List Nat))
    (payload_stream : Bool) : Except PyErr (List Nat) × LocalEffects :=
  if bytesTruthy payload && payload_stream then
    (.error (.valueError "Only one of payload and payload_stream can be used"),
      ⟨false, [], []⟩)
  else if payload_stream then
    if env.serviceExists method = false then
      -- `raise QubesDaemonCommunicationError('{} not found'.format(method_path))`
      -- is reached before `payload_stream.close()`: the stream stays open.
      (.error (.daemonCommunicationError (method ++ " not found")),
        ⟨false, [], []⟩)
    else
      -- Popen([method_path, arg], stdin=payload_stream); payload_stream.close();
      -- proc.communicate(); _parse_qubesd_response(return_data)
      (parseQubesdResponse env.serviceOutput,
        ⟨true, [⟨[some method, arg], true⟩], []⟩)
  else if env.connectOk = false then
    (.error .ioError, ⟨false, [], []⟩)
  else
    -- for call_arg in ('dom0', method, dest, arg):
    --     if call_arg is not None: sendall(call_arg.encode('ascii'))
    --     sendall(b'\0')
    -- if payload is not None: sendall(payload)
    let sent :=
      List.foldl
        (fun acc (f : Option String) =>
          acc ++ (match f with | none => [] | some s => strBytes s) ++ [0])
        [] [some "dom0", some method, some dest, arg]
    let sent := sent ++ (match payload with | none => [] | some p => p)
    (parseQubesdResponse env.socketResponse, ⟨false, [], sent⟩)

/-- Environment a `QubesRemote.qubesd_call` runs against: the spawned
qrexec client's exit code and its captured stdout and stderr. -/
structure RemoteEnv where
  returncode : Nat
  stdout : List Nat
  stderr : String
deriving DecidableEq, Repr

/-- Observable I/O effects of one `QubesRemote.qubesd_call`. -/
structure RemoteEffects where
  /-- was the caller-supplied payload stream closed? -/
  streamClosed : Bool
  /-- subprocesses spawned -/
  spawned : List SpawnRec
  /-- bytes written to the spawned subprocess's standard input -/
  stdinBytes : List Nat
deriving DecidableEq, Repr

/-- `QubesRemote.qubesd_call` (`qubesadmin/app.py` lines 448-483): the
qrexec-tunnel transport. Builds the service token `method` or
`method+arg`, spawns `[QREXEC_CLIENT_VM, dest, service_name]` with stdin
either the supplied stream or a pipe fed the payload bytes, closes the
stream when one was supplied, waits, and either raises
`QubesException('Service call error: %s', stderr.decode())` on a nonzero
exit code or parses the captured stdout. The client executable path
constant from `qubesadmin/config.py` is abbreviated to
`qrexec-client-vm`. -/
def QubesRemote.qubesd_call (env : RemoteEnv) (dest method : String)
    (arg : Option String) (payload : Option (List Nat))
    (payload_stream : Bool) : Except PyErr (List Nat) × RemoteEffects :=
  if bytesTruthy payload && payload_stream then
    (.error (.valueError "Only one of payload and payload_stream can be used"),
      ⟨false, [], []⟩)
  else
    let service_name := match arg with | none => method | some a => method ++ "+" ++ a
    let eff : RemoteEffects :=
      ⟨payload_stream,
        [⟨[some "qrexec-client-vm", some dest, some service_name], payload_stream⟩],
        if payload_stream then [] else (match payload with | none => [] | some p => p)⟩
    if env.returncode ≠ 0 then
      (.error (.qubesException "Service call error: %s" env.stderr), eff)
    else
      (parseQubesdResponse env.stdout, eff)

/-- Lookup in a Python dict modelled as an insertion-ordered association
list with unique keys: the value at the first matching key. -/
def dictGet? {α : Type} (d : List (String × α)) (k : String) : Option α :=
  match d with
  | [] => none
  | (k', v) :: rest => if k' = k then some v else dictGet? rest k

/-- Python `d[k] = v`: update in place when the key is present, append
otherwise. -/
def dictInsert {α : Type} (d : List (String × α)) (k : String) (v : α) :
    List (String × α) :=
  match d with
  | [] => [(k, v)]
  | (k', v') :: rest =>
    if k' = k then (k, v) :: rest else (k', v') :: dictInsert rest k v

/-- Python `del d[k]`: drop the first entry with the given key. -/
def dictDelete {α : Type} (d : List (String × α)) (k : String) :
    List (String × α) :=
  match d with
  | [] => []
  | (k', v') :: rest =>
    if k' = k then rest else (k', v') :: dictDelete rest k

/-- Keys of a modelled dict, in insertion order. -/
def dictKeys {α : Type} (d : List (String × α)) : List String :=
  d.map Prod.fst

/-- One instantiated VM wrapper object. `name` is the object's own `name`
attribute, `cls` its `__class__.__name__`, and `uid` models Python object
identity (`id()`): two wrapper objects are the same object exactly when
their `uid`s coincide, and `VMCollection` constructs wrappers with fresh
`uid`s. -/
structure Wrapper where
  name : String
  cls : String
  uid : Nat
deriving DecidableEq, Repr

/-- Raw attribute mapping of one listing record (`class=AppVM`, ...). -/
abbrev VMProps := List (String × String)

/-- State of a `VMCollection`: the cached listing `_vm_list`
(`None` when the cache is cleared) and the instantiated wrapper table
`_vm_objects`, plus the fresh-object counter backing `Wrapper.uid`. -/
structure CollState where
  vm_list : Option (List (String × VMProps))
  vm_objects : List (String × Wrapper)
  nextUid : Nat
deriving DecidableEq, Repr

/-- Calls a `VMCollection` operation issues through `app.qubesd_call`. -/
inductive AdminCall where
  /-- `qubesd_call('dom0', 'admin.vm.List')` -/
  | listVMs
  /-- `qubesd_call(key, 'admin.vm.Remove')` -/
  | removeVM (key : String)
deriving DecidableEq, Repr

/-- Split at the first occurrence of `sep`; `none` when `sep` is absent
(where Python's two-element unpacking of `s.split(sep, 1)` would raise). -/
def splitFirstAux {α : Type} [DecidableEq α] (sep : α) :
    List α → Option (List α × List α)
  | [] => none
  | c :: rest =>
    if c = sep then some ([], rest)
    else (splitFirstAux sep rest).map (fun p => (c :: p.1, p.2))

/-- Python `s.split(sep, 1)` unpacked into exactly two strings. -/
def pySplit1 (sep : Char) (s : String) : Option (String × String) :=
  (splitFirstAux sep s.data).map (fun p => (⟨p.1⟩, ⟨p.2⟩))

/-- Python `str.splitlines()` for ASCII data: split on newline, dropping
the final empty group a trailing newline would produce. -/
def pySplitlines (s : String) : List String :=
  let parts := splitListOn '\n' s.data
  let parts := if parts.getLast? = some [] then parts.dropLast else parts
  parts.map (fun l => ⟨l⟩)

/-- One `vm_prop.split('=', 1)` entry; `none` when `'='` is absent (where
`dict(...)` over the resulting 1-element list would raise). -/
def parseProp (p : String) : Option (String × String) := pySplit1 '=' p

/-- Parse one listing line (`refresh_cache` loop body,
`qubesadmin/app.py` lines 64-69): `vm_name, props = line.split(' ', 1)`,
`props = props.split(' ')`, then a dict of `prop.split('=', 1)` pairs.
`none` models the exception Python raises on a malformed line. -/
def parseVMLine (line : String) : Option (String × VMProps) := do
  let (vm_name, propsStr) ← pySplit1 ' ' line
  let props ← ((splitListOn ' ' propsStr.data).map
    (fun l => (⟨l⟩ : String))).mapM parseProp
  return (vm_name, props.foldl (fun d kv => dictInsert d kv.1 kv.2) [])

/-- Parse a whole raw listing into its records, line by line. -/
def parseVMListing (raw : String) : Option (List (String × VMProps)) :=
  (pySplitlines raw).mapM parseVMLine

/-- The dict `new_vm_list` built from the parsed records in listing
order. -/
def dictOfRecords (records : List (String × VMProps)) :
    List (String × VMProps) :=
  records.foldl (fun d r => dictInsert d r.1 r.2) []

/-- Reconciliation loop of `refresh_cache` (`qubesadmin/app.py` lines
72-83) over a snapshot of `_vm_objects.items()`: a wrapper is dropped
when its own `name` is no longer listed or its class tag changed, and
re-keyed under `vm.name` when its dict key differs from its `name`.
The error branch models the `KeyError` Python raises when a listed record
lacks a `class` property. -/
def reconcileAux (new_vm_list : List (String × VMProps)) :
    List (String × Wrapper) → List (String × Wrapper) →
    Except PyErr (List (String × Wrapper))
  | [], objs => .ok objs
  | (name, vm) :: rest, objs =>
    match dictGet? new_vm_list vm.name with
    | none =>
      -- VM no longer exists
      reconcileAux new_vm_list rest (dictDelete objs name)
    | some props =>
      match dictGet? props "class" with
      | none => .error (.keyError "class")
      | some c =>
        if c ≠ vm.cls then
          -- VM class have changed
          reconcileAux new_vm_list rest (dictDelete objs name)
        else if name ≠ vm.name then
          -- renamed
          reconcileAux new_vm_list rest (dictDelete (dictInsert objs vm.name vm) name)
        else
          reconcileAux new_vm_list rest objs

/-- `VMCollection.refresh_cache` (`qubesadmin/app.py` lines 54-83):
a no-op when already populated and not forced; otherwise issues the one
`admin.vm.List` call (whose raw response is `raw`), parses it, installs
the new listing and reconciles the wrapper table. On a parse error the
state is unchanged (the exception fires before `self._vm_list` is
assigned). -/
def refresh_cache (raw : String) (force : Bool) (st : CollState) :
    Except PyErr CollState × CollState × List AdminCall :=
  if force = false ∧ st.vm_list ≠ none then
    (.ok st, st, [])
  else
    match parseVMListing raw with
    | none => (.error (.valueError "malformed listing line"), st, [.listVMs])
    | some records =>
      let new_vm_list := dictOfRecords records
      match reconcileAux new_vm_list st.vm_objects st.vm_objects with
      | .error e => (.error e, st, [.listVMs])
      | .ok objs =>
        let st' : CollState := ⟨some new_vm_list, objs, st.nextUid⟩
        (.ok st', st', [.listVMs])

/-- `VMCollection.clear_cache` (`qubesadmin/app.py` lines 50-52):
forget the cached listing only; `_vm_objects` is untouched. -/
def clear_cache (st : CollState) : CollState :=
  ⟨none, st.vm_objects, st.nextUid⟩

/-- `VMCollection.__contains__` (`qubesadmin/app.py` lines 94-96):
non-forced refresh, then membership in `_vm_list`. -/
def vmContains (raw : String) (item : String) (st : CollState) :
    Except PyErr Bool × CollState × List AdminCall :=
  match refresh_cache raw false st with
  | (.error e, st', calls) => (.error e, st', calls)
  | (.ok st1, _, calls) =>
    ((.ok ((dictGet? (st1.vm_list.getD []) item).isSome)), st1, calls)

/-- `VMCollection.__getitem__` (`qubesadmin/app.py` lines 85-92):
`KeyError` when the item is not in the refreshed listing; otherwise the
cached wrapper if one exists, else a freshly constructed wrapper of the
class tag the listing records (the entry-point resolution in
`qubesadmin/utils.py` is not among the provided sources and is modelled
as constructing a wrapper carrying that class tag). -/
def getitem (raw : String) (item : String) (st : CollState) :
    Except PyErr Wrapper × CollState × List AdminCall :=
  match vmContains raw item st with
  | (.error e, st', calls) => (.error e, st', calls)
  | (.ok false, st', calls) => (.error (.keyError item), st', calls)
  | (.ok true, st1, calls) =>
    match dictGet? st1.vm_objects item with
    | some w => (.ok w, st1, calls)
    | none =>
      match (dictGet? (st1.vm_list.getD []) item).bind
          (fun props => dictGet? props "class") with
      | none => (.error (.keyError "class"), st1, calls)
      | some c =>
        let w : Wrapper := ⟨item, c, st1.nextUid⟩
        (.ok w,
          ⟨st1.vm_list, dictInsert st1.vm_objects item w, st1.nextUid + 1⟩,
          calls)

/-- `VMCollection.__delitem__` (`qubesadmin/app.py` lines 98-100):
issue `qubesd_call(key, 'admin.vm.Remove')`, then `clear_cache()`. -/
def delitem (key : String) (st : CollState) : CollState × List AdminCall :=
  (clear_cache st, [.removeVM key])

/-- Code-point lexicographic comparison of char lists, as Python's `<=`
on `str` behaves on ASCII data. -/
def charsLe : List Char → List Char → Bool
  | [], _ => true
  | _ :: _, [] => false
  | a :: as, b :: bs =>
    if a.toNat < b.toNat then true
    else if b.toNat < a.toNat then false
    else charsLe as bs

/-- Code-point lexicographic comparison of strings. -/
def pyStrLe (x y : String) : Bool := charsLe x.data y.data

/-- Python's builtin `sorted` on strings: insertion of one key into a
sorted list under code-point lexicographic order. -/
def insertSorted (x : String) : List String → List String
  | [] => [x]
  | y :: ys => if pyStrLe x y then x :: y :: ys else y :: insertSorted x ys

/-- Python's builtin `sorted` over a list of strings. -/
def pySorted (l : List String) : List String := l.foldr insertSorted []

/-- Loop body of `VMCollection.__iter__`: `for vm in sorted(self._vm_list):
yield self[vm]`, threading the collection state through each `self[vm]`. -/
def iterLoop (raw : String) :
    List String → CollState →
    Except PyErr (List Wrapper) × CollState × List AdminCall
  | [], st => (.ok [], st, [])
  | k :: rest, st =>
    match getitem raw k st with
    | (.error e, st', calls) => (.error e, st', calls)
    | (.ok w, st', calls) =>
      match iterLoop raw rest st' with
      | (.error e, st'', calls') => (.error e, st'', calls ++ calls')
      | (.ok ws, st'', calls') => (.ok (w :: ws), st'', calls ++ calls')

/-- `VMCollection.__iter__` (`qubesadmin/app.py` lines 102-105):
refresh, then yield `self[vm]` for each key of the cached listing in
sorted order. -/
def iterVMs (raw : String) (st : CollState) :
    Except PyErr (List Wrapper) × CollState × List AdminCall :=
  match refresh_cache raw false st with
  | (.error e, st', calls) => (.error e, st', calls)
  | (.ok st1, _, calls) =>
    match iterLoop raw (pySorted (dictKeys (st1.vm_list.getD []))) st1 with
    | (r, st'', calls') => (r, st'', calls ++ calls')

/-- `qubesadmin.storage.Volume` identity state as set by `__init__`
(`qubesadmin/storage.py` lines 25-48): either the `pool`+`vid` scheme or
the `vm`+`vm_name` scheme (or, as C10 observes, both). -/
structure Volume where
  _pool : Option String
  _vid : Option String
  _vm : Option String
  _vm_name : Option String
deriving DecidableEq, Repr

/-- `Volume.__init__` argument validation (`qubesadmin/storage.py` lines
38-47): per-check order as in the source. -/
def Volume.init (pool vid vm vm_name : Option String) : Except PyErr Volume :=
  if pool = none ∧ vm = none then
    .error (.valueError "Either pool or vm must be given")
  else if pool ≠ none ∧ vid = none then
    .error (.valueError "If pool is given, vid must be too.")
  else if vm ≠ none ∧ vm_name = none then
    .error (.valueError "If vm is given, vm_name must be too.")
  else
    .ok ⟨pool, vid, vm, vm_name⟩

/-- One call forwarded to `app.qubesd_call(dest, method, arg, payload)`. -/
structure QCall where
  dest : String
  method : String
  arg : Option String
  payload : Option (List Nat)
deriving DecidableEq, Repr

/-- `Volume._qubesd_call` (`qubesadmin/storage.py` lines 50-68): the
vm-based scheme wins whenever `_vm` is set; otherwise the pool-based
scheme sends `dom0` / `admin.pool.volume.*` / `_pool` with the `_vid`
prepended to the payload. (`__init__` guarantees `_vid` is set whenever
the pool branch is reached on a constructed volume; `getD` supplies the
unreachable default.) -/
def Volume._qubesd_call (v : Volume) (func_name : String)
    (payload : Option (List Nat)) : QCall :=
  match v._vm with
  | some vm => ⟨vm, "admin.vm.volume." ++ func_name, v._vm_name, payload⟩
  | none =>
    let vid := v._vid.getD ""
    let payload' :=
      match payload with
      | some p => some (strBytes vid ++ [32] ++ p)
      | none => some (strBytes vid)
    ⟨"dom0", "admin.pool.volume." ++ func_name, v._pool, payload'⟩

theorem serviceCallError_message (s : String) :
    PyErr.message (.qubesException "Service call error: %s" s) =
      "Service call error: " ++ s := by
  show (⟨pyPercentFormatAux s ("Service call error: %s".data)⟩ : String) =
    "Service call error: " ++ s
  have h : pyPercentFormatAux s ("Service call error: %s".data) =
      "Service call error: ".data ++ (s.data ++ []) := rfl
  rw [h, List.append_nil]
  rfl

/-- C1: the spec claims the payload stream is closed on every exit path,
explicitly including the local transport's missing-service-executable
failure — and the source's own docstring warns unconditionally that
"payload_stream will get closed by this function". The code contradicts
both: at an environment where the per-method service executable is
missing, `QubesLocal.qubesd_call` given a payload stream raises
`QubesDaemonCommunicationError` with the stream left unclosed
(`streamClosed = false`), because the existence check raises before
`payload_stream.close()` is reached. -/
theorem qubesLocal_missing_service_leaves_stream_unclosed :
    QubesLocal.qubesd_call ⟨fun _ => false, [], true, []⟩ "test-vm"
      "admin.vm.volume.Import" (some "private") none true =
      (.error (.daemonCommunicationError "admin.vm.volume.Import not found"),
        ⟨false, [], []⟩) := by
  rfl

/-- C2 counterexample: supplying both a payload and a payload stream does
not always raise `ValueError` before any I/O — the source tests Python
truthiness, so the supplied-but-empty payload `b''` together with a
payload stream passes the check: the remote transport spawns its
subprocess and completes the exchange normally. -/
theorem qubesRemote_empty_payload_and_stream_not_rejected :
    QubesRemote.qubesd_call ⟨0, [48, 0], ""⟩ "test-vm" "admin.vm.List" none
      (some []) true =
      (.ok [],
        ⟨true,
          [⟨[some "qrexec-client-vm", some "test-vm", some "admin.vm.List"],
            true⟩], []⟩) := by
  rfl

/-- C2 (amended): for every call, on either transport, in which a
*non-empty* payload and a payload stream are both supplied (Python
truthiness: the empty payload `b''` is treated like an absent one), a
`ValueError` is raised before any I/O — zero bytes written to any socket
or subprocess, no subprocess spawned, and the stream not closed. -/
theorem qubesd_call_payload_and_stream_mutually_exclusive
    (envL : LocalEnv) (envR : RemoteEnv) (dest method : String)
    (arg : Option String) (p : List Nat) (h : p ≠ []) :
    QubesLocal.qubesd_call envL dest method arg (some p) true =
      (.error (.valueError "Only one of payload and payload_stream can be used"),
        ⟨false, [], []⟩) ∧
    QubesRemote.qubesd_call envR dest method arg (some p) true =
      (.error (.valueError "Only one of payload and payload_stream can be used"),
        ⟨false, [], []⟩) := by
  match p, h with
  | x :: xs, _ => exact ⟨rfl, rfl⟩

theorem qubesd_call_payload_and_stream_mutually_exclusive_witness :
    ([65] : List Nat) ≠ [] ∧
    (QubesLocal.qubesd_call ⟨fun _ => true, [], true, []⟩ "d0" "m0" none
        (some [65]) true =
      (.error (.valueError "Only one of payload and payload_stream can be used"),
        ⟨false, [], []⟩) ∧
     QubesRemote.qubesd_call ⟨0, [], ""⟩ "d0" "m0" none (some [65]) true =
      (.error (.valueError "Only one of payload and payload_stream can be used"),
        ⟨false, [], []⟩)) :=
  ⟨by decide,
    qubesd_call_payload_and_stream_mutually_exclusive _ _ "d0" "m0" none [65]
      (by decide)⟩

/-- C3: on the local transport without a payload stream, the bytes
written to the socket are exactly four NUL-terminated fields in the order
source (`dom0`), method, dest, arg — an absent (`None`) arg contributes
just its NUL byte, never omitted — followed immediately by the payload
bytes (if any) with no trailing delimiter. -/
theorem qubesLocal_socket_framing (env : LocalEnv) (dest method : String)
    (arg : Option String) (payload : Option (List Nat))
    (hconn : env.connectOk = true) :
    (QubesLocal.qubesd_call env dest method arg payload false).2.socketBytes =
      strBytes "dom0" ++ [0] ++ strBytes method ++ [0] ++ strBytes dest ++ [0] ++
        (match arg with | none => [] | some a => strBytes a) ++ [0] ++
        (match payload with | none => [] | some p => p) := by
  simp [QubesLocal.qubesd_call, hconn, List.foldl, List.append_assoc]

theorem qubesLocal_socket_framing_witness :
    (LocalEnv.mk (fun _ => true) [] true []).connectOk = true ∧
    (QubesLocal.qubesd_call ⟨fun _ => true, [], true, []⟩ "test-vm"
        "admin.vm.List" none (some [65, 66]) false).2.socketBytes =
      strBytes "dom0" ++ [0] ++ strBytes "admin.vm.List" ++ [0] ++
        strBytes "test-vm" ++ [0] ++
        (match (none : Option String) with | none => [] | some a => strBytes a) ++
        [0] ++
        (match (some [65, 66] : Option (List Nat)) with
          | none => [] | some p => p) :=
  ⟨rfl,
    qubesLocal_socket_framing ⟨fun _ => true, [], true, []⟩ "test-vm"
      "admin.vm.List" none (some [65, 66]) rfl⟩

/-- C8: on the remote transport (for every call that reaches the
subprocess, i.e. does not trip the payload/stream exclusion), a nonzero
subprocess exit code raises a `QubesException` whose message is the
captured stderr text appended to "Service call error: " — regardless of
what the captured stdout contains — and a zero exit code yields the
captured stdout decoded as the response. -/
theorem qubesRemote_exit_code_contract (env : RemoteEnv) (dest method : String)
    (arg : Option String) (payload : Option (List Nat)) (payload_stream : Bool)
    (hx : (bytesTruthy payload && payload_stream) = false) :
    (env.returncode ≠ 0 →
      (QubesRemote.qubesd_call env dest method arg payload payload_stream).1 =
        .error (.qubesException "Service call error: %s" env.stderr) ∧
      PyErr.message (.qubesException "Service call error: %s" env.stderr) =
        "Service call error: " ++ env.stderr) ∧
    (env.returncode = 0 →
      (QubesRemote.qubesd_call env dest method arg payload payload_stream).1 =
        parseQubesdResponse env.stdout) := by
  constructor
  · intro hne
    refine ⟨?_, serviceCallError_message env.stderr⟩
    simp [QubesRemote.qubesd_call, hx, hne]
  · intro h0
    simp [QubesRemote.qubesd_call, hx, h0]

theorem qubesRemote_exit_code_contract_witness :
    ((bytesTruthy none && false) = false) ∧
    (((RemoteEnv.mk 1 [48, 0, 65] "boom").returncode ≠ 0 →
      (QubesRemote.qubesd_call ⟨1, [48, 0, 65], "boom"⟩ "test-vm"
          "admin.vm.List" none none false).1 =
        .error (.qubesException "Service call error: %s"
          (RemoteEnv.mk 1 [48, 0, 65] "boom").stderr) ∧
      PyErr.message (.qubesException "Service call error: %s"
          (RemoteEnv.mk 1 [48, 0, 65] "boom").stderr) =
        "Service call error: " ++ (RemoteEnv.mk 1 [48, 0, 65] "boom").stderr) ∧
     ((RemoteEnv.mk 1 [48, 0, 65] "boom").returncode = 0 →
      (QubesRemote.qubesd_call ⟨1, [48, 0, 65], "boom"⟩ "test-vm"
          "admin.vm.List" none none false).1 =
        parseQubesdResponse (RemoteEnv.mk 1 [48, 0, 65] "boom").stdout)) :=
  ⟨rfl,
    qubesRemote_exit_code_contract ⟨1, [48, 0, 65], "boom"⟩ "test-vm"
      "admin.vm.List" none none false rfl⟩

theorem dictGet?_mem {α : Type} {d : List (String × α)} {k : String} {v : α}
    (h : dictGet? d k = some v) : (k, v) ∈ d := by
  induction d with
  | nil => simp [dictGet?] at h
  | cons p rest ih =>
    obtain ⟨k', v'⟩ := p
    by_cases hk : k' = k
    · subst hk
      simp [dictGet?] at h
      simp [h]
    · simp [dictGet?, hk] at h
      exact List.mem_cons_of_mem _ (ih h)

theorem mem_dictGet? {α : Type} {d : List (String × α)} {k : String} {v : α}
    (hnd : (dictKeys d).Nodup) (h : (k, v) ∈ d) : dictGet? d k = some v := by
  induction d with
  | nil => simp at h
  | cons p rest ih =>
    obtain ⟨k', v'⟩ := p
    simp [dictKeys] at hnd
    rcases List.mem_cons.mp h with h1 | h1
    · obtain ⟨hk, hv⟩ := Prod.mk.injEq .. ▸ h1
      simp [dictGet?, hk.symm, hv]
    · have hkne : k' ≠ k := by
        intro he
        subst he
        exact hnd.1 v (by simpa using h1)
      simp [dictGet?, hkne]
      exact ih hnd.2 h1

theorem dictGet?_isSome_iff_mem_keys {α : Type} {d : List (String × α)}
    {k : String} : (dictGet? d k).isSome ↔ k ∈ dictKeys d := by
  induction d with
  | nil => simp [dictGet?, dictKeys]
  | cons p rest ih =>
    obtain ⟨k', v'⟩ := p
    by_cases hk : k' = k
    · simp [dictGet?, dictKeys, hk]
    · simp [dictGet?, dictKeys, hk, ih, Ne.symm hk]

theorem dictGet?_dictInsert_self {α : Type} (d : List (String × α))
    (k : String) (v : α) : dictGet? (dictInsert d k v) k = some v := by
  induction d with
  | nil => simp [dictInsert, dictGet?]
  | cons p rest ih =>
    obtain ⟨k', v'⟩ := p
    by_cases hk : k' = k
    · simp [dictInsert, hk, dictGet?]
    · simp [dictInsert, hk, dictGet?, ih]

theorem dictGet?_dictInsert_ne {α : Type} (d : List (String × α))
    {k k' : String} (v : α) (hne : k' ≠ k) :
    dictGet? (dictInsert d k v) k' = dictGet? d k' := by
  induction d with
  | nil => simp [dictInsert, dictGet?, Ne.symm hne]
  | cons p rest ih =>
    obtain ⟨k0, v0⟩ := p
    by_cases hk : k0 = k
    · subst hk
      simp [dictInsert, dictGet?, Ne.symm hne]
    · by_cases hk' : k0 = k'
      · simp [dictInsert, hk, dictGet?, hk', hne]
      · simp [dictInsert, hk, dictGet?, hk', ih]

theorem dictGet?_dictDelete_self {α : Type} {d : List (String × α)}
    {k : String} (hnd : (dictKeys d).Nodup) :
    dictGet? (dictDelete d k) k = none := by
  induction d with
  | nil => rfl
  | cons p rest ih =>
    obtain ⟨k', v'⟩ := p
    have hnd2 : k' ∉ dictKeys rest ∧ (dictKeys rest).Nodup :=
      List.nodup_cons.mp hnd
    by_cases hk : k' = k
    · subst hk
      have hd : dictDelete ((k', v') :: rest) k' = rest := by simp [dictDelete]
      rw [hd]
      cases hrest : dictGet? rest k' with
      | none => rfl
      | some v =>
        exact absurd (dictGet?_isSome_iff_mem_keys.mp (by simp [hrest])) hnd2.1
    · simp [dictDelete, hk, dictGet?, ih hnd2.2]

theorem dictGet?_dictDelete_ne {α : Type} (d : List (String × α))
    {k k' : String} (hne : k' ≠ k) :
    dictGet? (dictDelete d k) k' = dictGet? d k' := by
  induction d with
  | nil => simp [dictDelete]
  | cons p rest ih =>
    obtain ⟨k0, v0⟩ := p
    by_cases hk : k0 = k
    · subst hk
      simp [dictDelete, dictGet?, Ne.symm hne]
    · simp [dictDelete, hk, dictGet?, ih]

theorem mem_dictDelete {α : Type} {d : List (String × α)} {k : String}
    {p : String × α} (h : p ∈ dictDelete d k) : p ∈ d := by
  induction d with
  | nil => simp [dictDelete] at h
  | cons q rest ih =>
    obtain ⟨k0, v0⟩ := q
    by_cases hk : k0 = k
    · simp [dictDelete, hk] at h
      exact List.mem_cons_of_mem _ h
    · simp [dictDelete, hk] at h
      rcases h with h | h
      · simp [h]
      · exact List.mem_cons_of_mem _ (ih h)

theorem dictKeys_dictDelete_sublist {α : Type} (d : List (String × α))
    (k : String) : (dictKeys (dictDelete d k)).Sublist (dictKeys d) := by
  induction d with
  | nil => simp [dictDelete]
  | cons q rest ih =>
    obtain ⟨k0, v0⟩ := q
    by_cases hk : k0 = k
    · subst hk
      have hd : dictDelete ((k0, v0) :: rest) k0 = rest := by simp [dictDelete]
      rw [hd]
      show (dictKeys rest).Sublist (k0 :: dictKeys rest)
      exact List.sublist_cons_self _ _
    · simpa [dictDelete, hk, dictKeys] using ih.cons₂ k0

theorem dictKeys_dictDelete_nodup {α : Type} {d : List (String × α)}
    {k : String} (hnd : (dictKeys d).Nodup) :
    (dictKeys (dictDelete d k)).Nodup :=
  (dictKeys_dictDelete_sublist d k).nodup hnd

theorem mem_dictInsert {α : Type} {d : List (String × α)} {k : String}
    {v : α} {p : String × α} (h : p ∈ dictInsert d k v) :
    p = (k, v) ∨ p ∈ d := by
  induction d with
  | nil => simpa [dictInsert] using h
  | cons q rest ih =>
    obtain ⟨k0, v0⟩ := q
    by_cases hk : k0 = k
    · simp [dictInsert, hk] at h
      rcases h with h | h
      · exact Or.inl (by simp [h])
      · exact Or.inr (List.mem_cons_of_mem _ h)
    · simp [dictInsert, hk] at h
      rcases h with h | h
      · exact Or.inr (by simp [h])
      · rcases ih h with h1 | h1
        · exact Or.inl h1
        · exact Or.inr (List.mem_cons_of_mem _ h1)

theorem dictInsert_of_not_mem {α : Type} {d : List (String × α)}
    {k : String} (v : α) (h : k ∉ dictKeys d) :
    dictInsert d k v = d ++ [(k, v)] := by
  induction d with
  | nil => rfl
  | cons q rest ih =>
    obtain ⟨k0, v0⟩ := q
    have hh : k ∉ k0 :: dictKeys rest := h
    have h1 : k ≠ k0 := fun he => hh (by simp [he])
    have h2 : k ∉ dictKeys rest := fun hm => hh (List.mem_cons_of_mem _ hm)
    simp only [dictInsert]
    rw [if_neg (fun he => h1 he.symm), ih h2]
    simp

theorem foldl_dictInsert_fresh {α : Type} :
    ∀ (rs : List (String × α)) (d : List (String × α)),
      (rs.map Prod.fst).Nodup → (∀ r ∈ rs, r.1 ∉ dictKeys d) →
      rs.foldl (fun d r => dictInsert d r.1 r.2) d = d ++ rs
  | [], d, _, _ => by simp
  | r :: rest, d, hnd, hfresh => by
    have hnd2 : r.1 ∉ rest.map Prod.fst ∧ (rest.map Prod.fst).Nodup :=
      List.nodup_cons.mp (by simpa using hnd)
    simp only [List.foldl_cons]
    rw [dictInsert_of_not_mem r.2 (hfresh r (List.mem_cons_self _ _))]
    rw [foldl_dictInsert_fresh rest (d ++ [(r.1, r.2)]) hnd2.2 ?fresh]
    · simp
    case fresh =>
      intro q hq
      have hkeys : dictKeys (d ++ [(r.1, r.2)]) = dictKeys d ++ [r.1] := by
        simp [dictKeys]
      rw [hkeys]
      intro hmem
      rcases List.mem_append.mp hmem with hm | hm
      · exact hfresh q (List.mem_cons_of_mem _ hq) hm
      · have he : q.1 = r.1 := by simpa using hm
        exact hnd2.1 (he ▸ List.mem_map_of_mem Prod.fst hq)

theorem dictOfRecords_eq_self {records : List (String × VMProps)}
    (hnd : (records.map Prod.fst).Nodup) : dictOfRecords records = records := by
  simpa using foldl_dictInsert_fresh records [] hnd (by simp [dictKeys])

theorem charsLe_total : ∀ a b : List Char, charsLe a b = true ∨ charsLe b a = true
  | [], _ => Or.inl rfl
  | _ :: _, [] => Or.inr rfl
  | a :: as, b :: bs => by
    by_cases h1 : a.toNat < b.toNat
    · exact Or.inl (by simp [charsLe, h1])
    · by_cases h2 : b.toNat < a.toNat
      · exact Or.inr (by simp [charsLe, h2])
      · rcases charsLe_total as bs with h | h
        · exact Or.inl (by simpa [charsLe, h1, h2] using h)
        · exact Or.inr (by simpa [charsLe, h1, h2] using h)

theorem charsLe_trans : ∀ a b c : List Char,
    charsLe a b = true → charsLe b c = true → charsLe a c = true
  | [], _, _, _, _ => rfl
  | _ :: _, [], _, hab, _ => by simp [charsLe] at hab
  | _ :: _, _ :: _, [], _, hbc => by simp [charsLe] at hbc
  | a :: as, b :: bs, c :: cs, hab, hbc => by
    simp only [charsLe] at hab hbc ⊢
    by_cases h1 : a.toNat < b.toNat
    · by_cases h2 : b.toNat < c.toNat
      · simp [Nat.lt_trans h1 h2]
      · by_cases h3 : c.toNat < b.toNat
        · simp [h2, h3] at hbc
        · have hbc' : b.toNat = c.toNat := Nat.le_antisymm
            (Nat.le_of_not_lt h3) (Nat.le_of_not_lt h2)
          simp [hbc' ▸ h1]
    · by_cases h1' : b.toNat < a.toNat
      · simp [h1, h1'] at hab
      · have hab' : a.toNat = b.toNat := Nat.le_antisymm
          (Nat.le_of_not_lt h1') (Nat.le_of_not_lt h1)
        simp [h1, h1'] at hab
        by_cases h2 : b.toNat < c.toNat
        · simp [hab' ▸ h2]
        · by_cases h3 : c.toNat < b.toNat
          · simp [h2, h3] at hbc
          · simp [h2, h3] at hbc
            simp [hab' ▸ h2, hab' ▸ h3, charsLe_trans as bs cs hab hbc]

theorem charsLe_antisymm : ∀ a b : List Char,
    charsLe a b = true → charsLe b a = true → a = b
  | [], [], _, _ => rfl
  | [], _ :: _, _, hba => by simp [charsLe] at hba
  | _ :: _, [], hab, _ => by simp [charsLe] at hab
  | a :: as, b :: bs, hab, hba => by
    simp only [charsLe] at hab hba
    by_cases h1 : a.toNat < b.toNat
    · simp [h1, Nat.lt_asymm h1] at hba
    · by_cases h2 : b.toNat < a.toNat
      · simp [h1, h2] at hab
      · have he : a = b := Char.ext (UInt32.ext
          (Nat.le_antisymm (Nat.le_of_not_lt h2) (Nat.le_of_not_lt h1)))
        simp [h1, h2] at hab
        simp [h1, h2] at hba
        rw [he, charsLe_antisymm as bs hab hba]

theorem strDataEq {a b : String} (h : a.data = b.data) : a = b :=
  congrArg String.mk h

theorem pyStrLe_total (a b : String) : pyStrLe a b = true ∨ pyStrLe b a = true :=
  charsLe_total a.data b.data

theorem pyStrLe_trans {a b c : String} (hab : pyStrLe a b = true)
    (hbc : pyStrLe b c = true) : pyStrLe a c = true :=
  charsLe_trans a.data b.data c.data hab hbc

theorem pyStrLe_antisymm {a b : String} (hab : pyStrLe a b = true)
    (hba : pyStrLe b a = true) : a = b :=
  strDataEq (charsLe_antisymm a.data b.data hab hba)

theorem insertSorted_perm (x : String) (l : List String) :
    (insertSorted x l).Perm (x :: l) := by
  induction l with
  | nil => exact List.Perm.refl _
  | cons y ys ih =>
    by_cases h : pyStrLe x y
    · simp [insertSorted, h]
    · simp only [insertSorted, h, Bool.false_eq_true, if_false]
      exact (ih.cons y).trans (List.Perm.swap x y ys)

theorem pySorted_perm (l : List String) : (pySorted l).Perm l := by
  induction l with
  | nil => exact List.Perm.refl _
  | cons x xs ih =>
    exact (insertSorted_perm x (pySorted xs)).trans (ih.cons x)

theorem mem_insertSorted {a x : String} {l : List String}
    (h : a ∈ insertSorted x l) : a = x ∨ a ∈ l := by
  have := (insertSorted_perm x l).mem_iff.mp h
  simpa using this

theorem insertSorted_pairwise (x : String) {l : List String}
    (h : List.Pairwise (fun a b => pyStrLe a b = true) l) :
    List.Pairwise (fun a b => pyStrLe a b = true) (insertSorted x l) := by
  induction l with
  | nil => simp [insertSorted]
  | cons y ys ih =>
    by_cases hle : pyStrLe x y
    · simp only [insertSorted, hle, if_true]
      refine List.Pairwise.cons ?_ h
      intro z hz
      rcases List.mem_cons.mp hz with hz | hz
      · exact hz ▸ hle
      · exact pyStrLe_trans hle (List.rel_of_pairwise_cons h hz)
    · simp only [insertSorted, hle, Bool.false_eq_true, if_false]
      refine List.Pairwise.cons ?_ (ih (List.Pairwise.sublist (List.sublist_cons_self y ys) h))
      intro z hz
      rcases mem_insertSorted hz with hz | hz
      · subst hz
        rcases pyStrLe_total z y with ht | ht
        · exact absurd ht hle
        · exact ht
      · exact List.rel_of_pairwise_cons h hz

theorem pySorted_pairwise (l : List String) :
    List.Pairwise (fun a b => pyStrLe a b = true) (pySorted l) := by
  induction l with
  | nil => simp [pySorted]
  | cons x xs ih => exact insertSorted_pairwise x ih

theorem pySorted_pairwise_strict {l : List String} (hnd : l.Nodup) :
    List.Pairwise (fun a b => pyStrLe a b = true ∧ a ≠ b) (pySorted l) := by
  have h1 := pySorted_pairwise l
  have h2 : (pySorted l).Nodup := ((pySorted_perm l).nodup_iff).mpr hnd
  exact h1.and h2

theorem pySorted_eq_of_perm {l₁ l₂ : List String} (h : l₁.Perm l₂) :
    pySorted l₁ = pySorted l₂ := by
  haveI : IsAntisymm String (fun a b => pyStrLe a b = true) :=
    ⟨fun _ _ => pyStrLe_antisymm⟩
  exact List.eq_of_perm_of_sorted
    ((pySorted_perm l₁).trans (h.trans (pySorted_perm l₂).symm))
    (pySorted_pairwise l₁) (pySorted_pairwise l₂)

theorem reconcileAux_mem (nl : List (String × VMProps)) :
    ∀ (snap objs objs' : List (String × Wrapper)) (p : String × Wrapper),
      (∀ q ∈ snap, (q.2 : Wrapper).name = q.1) →
      reconcileAux nl snap objs = .ok objs' → p ∈ objs' → p ∈ objs
  | [], objs, objs', p, _, hok, hp => by
    simp only [reconcileAux, Except.ok.injEq] at hok
    exact hok ▸ hp
  | (name, vm) :: rest, objs, objs', p, hnames, hok, hp => by
    have hvm : vm.name = name := hnames (name, vm) (List.mem_cons_self _ _)
    have hrest : ∀ q ∈ rest, (q.2 : Wrapper).name = q.1 :=
      fun q hq => hnames q (List.mem_cons_of_mem _ hq)
    simp only [reconcileAux] at hok
    cases hnl : dictGet? nl vm.name with
    | none =>
      simp only [hnl] at hok
      exact mem_dictDelete (reconcileAux_mem nl rest _ _ p hrest hok hp)
    | some props =>
      simp only [hnl] at hok
      cases hcc : dictGet? props "class" with
      | none =>
        simp only [hcc] at hok
        exact absurd hok (by simp)
      | some c =>
        simp only [hcc] at hok
        by_cases he : c = vm.cls
        · rw [if_neg (not_not_intro he), if_neg (not_not_intro hvm.symm)] at hok
          exact reconcileAux_mem nl rest _ _ p hrest hok hp
        · rw [if_pos he] at hok
          exact mem_dictDelete (reconcileAux_mem nl rest _ _ p hrest hok hp)

theorem reconcileAux_nodup (nl : List (String × VMProps)) :
    ∀ (snap objs objs' : List (String × Wrapper)),
      (∀ q ∈ snap, (q.2 : Wrapper).name = q.1) →
      (dictKeys objs).Nodup →
      reconcileAux nl snap objs = .ok objs' → (dictKeys objs').Nodup
  | [], objs, objs', _, hnd, hok => by
    simp only [reconcileAux, Except.ok.injEq] at hok
    exact hok ▸ hnd
  | (name, vm) :: rest, objs, objs', hnames, hnd, hok => by
    have hvm : vm.name = name := hnames (name, vm) (List.mem_cons_self _ _)
    have hrest : ∀ q ∈ rest, (q.2 : Wrapper).name = q.1 :=
      fun q hq => hnames q (List.mem_cons_of_mem _ hq)
    simp only [reconcileAux] at hok
    cases hnl : dictGet? nl vm.name with
    | none =>
      simp only [hnl] at hok
      exact reconcileAux_nodup nl rest _ _ hrest (dictKeys_dictDelete_nodup hnd) hok
    | some props =>
      simp only [hnl] at hok
      cases hcc : dictGet? props "class" with
      | none =>
        simp only [hcc] at hok
        exact absurd hok (by simp)
      | some c =>
        simp only [hcc] at hok
        by_cases he : c = vm.cls
        · rw [if_neg (not_not_intro he), if_neg (not_not_intro hvm.symm)] at hok
          exact reconcileAux_nodup nl rest _ _ hrest hnd hok
        · rw [if_pos he] at hok
          exact reconcileAux_nodup nl rest _ _ hrest (dictKeys_dictDelete_nodup hnd) hok

theorem reconcileAux_ok (nl : List (String × VMProps))
    (hcls : ∀ p ∈ nl, (dictGet? p.2 "class").isSome) :
    ∀ (snap objs : List (String × Wrapper)),
      ∃ objs', reconcileAux nl snap objs = .ok objs'
  | [], objs => ⟨objs, rfl⟩
  | (name, vm) :: rest, objs => by
    cases hnl : dictGet? nl vm.name with
    | none =>
      obtain ⟨objs', hrec⟩ := reconcileAux_ok nl hcls rest (dictDelete objs name)
      refine ⟨objs', ?_⟩
      simp only [reconcileAux, hnl]
      exact hrec
    | some props =>
      have hc : (dictGet? props "class").isSome :=
        hcls (vm.name, props) (dictGet?_mem hnl)
      cases hcc : dictGet? props "class" with
      | none => simp [hcc] at hc
      | some c =>
        by_cases he : c = vm.cls
        · by_cases hn : name = vm.name
          · obtain ⟨objs', hrec⟩ := reconcileAux_ok nl hcls rest objs
            refine ⟨objs', ?_⟩
            simp only [reconcileAux, hnl, hcc]
            rw [if_neg (not_not_intro he), if_neg (not_not_intro hn)]
            exact hrec
          · obtain ⟨objs', hrec⟩ := reconcileAux_ok nl hcls rest
              (dictDelete (dictInsert objs vm.name vm) name)
            refine ⟨objs', ?_⟩
            simp only [reconcileAux, hnl, hcc]
            rw [if_neg (not_not_intro he), if_pos hn]
            exact hrec
        · obtain ⟨objs', hrec⟩ := reconcileAux_ok nl hcls rest (dictDelete objs name)
          refine ⟨objs', ?_⟩
          simp only [reconcileAux, hnl, hcc]
          rw [if_pos he]
          exact hrec

theorem reconcileAux_get_not_mem (nl : List (String × VMProps)) :
    ∀ (snap objs objs' : List (String × Wrapper)) (k : String),
      (∀ q ∈ snap, (q.2 : Wrapper).name = q.1) →
      k ∉ dictKeys snap →
      reconcileAux nl snap objs = .ok objs' →
      dictGet? objs' k = dictGet? objs k
  | [], objs, objs', k, _, _, hok => by
    simp only [reconcileAux, Except.ok.injEq] at hok
    exact hok ▸ rfl
  | (name, vm) :: rest, objs, objs', k, hnames, hk, hok => by
    have hvm : vm.name = name := hnames (name, vm) (List.mem_cons_self _ _)
    have hrest : ∀ q ∈ rest, (q.2 : Wrapper).name = q.1 :=
      fun q hq => hnames q (List.mem_cons_of_mem _ hq)
    have hk2 : k ∉ name :: dictKeys rest := hk
    have hkname : k ≠ name := fun he => hk2 (by simp [he])
    have hkrest : k ∉ dictKeys rest := fun hm => hk2 (List.mem_cons_of_mem _ hm)
    simp only [reconcileAux] at hok
    cases hnl : dictGet? nl vm.name with
    | none =>
      simp only [hnl] at hok
      rw [reconcileAux_get_not_mem nl rest _ _ k hrest hkrest hok]
      exact dictGet?_dictDelete_ne objs hkname
    | some props =>
      simp only [hnl] at hok
      cases hcc : dictGet? props "class" with
      | none =>
        simp only [hcc] at hok
        exact absurd hok (by simp)
      | some c =>
        simp only [hcc] at hok
        by_cases he : c = vm.cls
        · rw [if_neg (not_not_intro he), if_neg (not_not_intro hvm.symm)] at hok
          exact reconcileAux_get_not_mem nl rest _ _ k hrest hkrest hok
        · rw [if_pos he] at hok
          rw [reconcileAux_get_not_mem nl rest _ _ k hrest hkrest hok]
          exact dictGet?_dictDelete_ne objs hkname

theorem reconcileAux_get_mem (nl : List (String × VMProps)) :
    ∀ (snap objs objs' : List (String × Wrapper)) (k : String) (w : Wrapper),
      (dictKeys snap).Nodup →
      (∀ q ∈ snap, (q.2 : Wrapper).name = q.1) →
      (dictKeys objs).Nodup →
      (k, w) ∈ snap →
      reconcileAux nl snap objs = .ok objs' →
      dictGet? objs' k =
        (if (dictGet? nl k).bind (fun pr => dictGet? pr "class") = some w.cls
         then dictGet? objs k else none)
  | [], _, _, _, _, _, _, _, hmem, _ => by simp at hmem
  | (name, vm) :: rest, objs, objs', k, w, hsnd, hnames, hond, hmem, hok => by
    have hvm : vm.name = name := hnames (name, vm) (List.mem_cons_self _ _)
    have hrest : ∀ q ∈ rest, (q.2 : Wrapper).name = q.1 :=
      fun q hq => hnames q (List.mem_cons_of_mem _ hq)
    have hsnd2 : name ∉ dictKeys rest ∧ (dictKeys rest).Nodup :=
      List.nodup_cons.mp hsnd
    simp only [reconcileAux] at hok
    rcases List.mem_cons.mp hmem with hhead | htail
    · -- the snapshot entry being processed is (k, w) itself
      have hkn : k = name := congrArg Prod.fst hhead
      have hwvm : w = vm := congrArg Prod.snd hhead
      subst hkn
      subst hwvm
      rw [hvm] at hok
      cases hnl : dictGet? nl k with
      | none =>
        simp only [hnl] at hok
        rw [reconcileAux_get_not_mem nl rest _ _ k hrest hsnd2.1 hok]
        simp [dictGet?_dictDelete_self hond]
      | some props =>
        simp only [hnl] at hok
        cases hcc : dictGet? props "class" with
        | none =>
          simp only [hcc] at hok
          exact absurd hok (by simp)
        | some c =>
          simp only [hcc] at hok
          by_cases he : c = w.cls
          · rw [if_neg (not_not_intro he), if_neg (not_not_intro rfl)] at hok
            rw [reconcileAux_get_not_mem nl rest _ _ k hrest hsnd2.1 hok]
            simp [hcc, he]
          · rw [if_pos he] at hok
            rw [reconcileAux_get_not_mem nl rest _ _ k hrest hsnd2.1 hok]
            rw [dictGet?_dictDelete_self hond]
            simp [hcc, he]
    · -- (k, w) sits further down the snapshot; the head entry only
      -- touches its own (distinct) key
      have hkne : k ≠ name := by
        intro he
        exact hsnd2.1 (he ▸ List.mem_map_of_mem Prod.fst htail)
      cases hnl : dictGet? nl vm.name with
      | none =>
        simp only [hnl] at hok
        rw [reconcileAux_get_mem nl rest _ _ k w hsnd2.2 hrest
          (dictKeys_dictDelete_nodup hond) htail hok]
        rw [dictGet?_dictDelete_ne objs hkne]
      | some props =>
        simp only [hnl] at hok
        cases hcc : dictGet? props "class" with
        | none =>
          simp only [hcc] at hok
          exact absurd hok (by simp)
        | some c =>
          simp only [hcc] at hok
          by_cases he : c = vm.cls
          · rw [if_neg (not_not_intro he), if_neg (not_not_intro hvm.symm)] at hok
            exact reconcileAux_get_mem nl rest _ _ k w hsnd2.2 hrest hond htail hok
          · rw [if_pos he] at hok
            rw [reconcileAux_get_mem nl rest _ _ k w hsnd2.2 hrest
              (dictKeys_dictDelete_nodup hond) htail hok]
            rw [dictGet?_dictDelete_ne objs hkne]

theorem refresh_cache_populated (raw : String) {st : CollState}
    {L : List (String × VMProps)} (hpop : st.vm_list = some L) :
    refresh_cache raw false st = (.ok st, st, []) := by
  simp [refresh_cache, hpop]

theorem refresh_cache_calls_le_one (raw : String) (force : Bool)
    (st : CollState) : (refresh_cache raw force st).2.2.length ≤ 1 := by
  by_cases hc : force = false ∧ st.vm_list ≠ none
  · simp [refresh_cache, hc]
  · cases hpr : parseVMListing raw with
    | none => simp [refresh_cache, hc, hpr]
    | some records =>
      cases hrec : reconcileAux (dictOfRecords records) st.vm_objects
          st.vm_objects with
      | error e => simp [refresh_cache, hc, hpr, hrec]
      | ok objs => simp [refresh_cache, hc, hpr, hrec]

theorem refresh_cache_unpopulated_calls (raw : String) {st : CollState}
    (h : st.vm_list = none) :
    (refresh_cache raw false st).2.2 = [.listVMs] := by
  cases hpr : parseVMListing raw with
  | none => simp [refresh_cache, h, hpr]
  | some records =>
    cases hrec : reconcileAux (dictOfRecords records) st.vm_objects
        st.vm_objects with
    | error e => simp [refresh_cache, h, hpr, hrec]
    | ok objs => simp [refresh_cache, h, hpr, hrec]

theorem refresh_cache_unpopulated_ok {raw : String} {st : CollState}
    {records : List (String × VMProps)} {objs' : List (String × Wrapper)}
    (force : Bool) (hgo : force = true ∨ st.vm_list = none)
    (hparse : parseVMListing raw = some records)
    (hrec : reconcileAux (dictOfRecords records) st.vm_objects st.vm_objects =
      .ok objs') :
    refresh_cache raw force st =
      (.ok ⟨some (dictOfRecords records), objs', st.nextUid⟩,
        ⟨some (dictOfRecords records), objs', st.nextUid⟩, [.listVMs]) := by
  have hcond : ¬ (force = false ∧ st.vm_list ≠ none) := by
    rcases hgo with h | h <;> simp [h]
  simp [refresh_cache, hcond, hparse, hrec]

theorem vmContains_calls (raw item : String) (st : CollState) :
    (vmContains raw item st).2.2 = (refresh_cache raw false st).2.2 := by
  unfold vmContains
  rcases hres : refresh_cache raw false st with ⟨r, st2, calls⟩
  cases r <;> rfl

theorem getitem_calls (raw item : String) (st : CollState) :
    (getitem raw item st).2.2 = (refresh_cache raw false st).2.2 := by
  unfold getitem vmContains
  rcases hres : refresh_cache raw false st with ⟨r, st2, calls⟩
  cases r with
  | error e => rfl
  | ok st1 =>
    cases hb : (dictGet? (st1.vm_list.getD []) item).isSome with
    | false => simp [hb]
    | true =>
      cases ho : dictGet? st1.vm_objects item with
      | some w => simp [hb, ho]
      | none =>
        cases hcl : (dictGet? (st1.vm_list.getD []) item).bind
            (fun props => dictGet? props "class") with
        | none => simp [hb, ho, hcl]
        | some c => simp [hb, ho, hcl]

theorem getitem_populated (raw k : String) {st : CollState}
    {L : List (String × VMProps)} (hpop : st.vm_list = some L)
    (hmem : (dictGet? L k).isSome)
    (hclsk : ((dictGet? L k).bind (fun pr => dictGet? pr "class")).isSome)
    (hnames : ∀ p ∈ st.vm_objects, (p.2 : Wrapper).name = p.1) :
    ∃ w st', getitem raw k st = (.ok w, st', []) ∧ w.name = k ∧
      st'.vm_list = some L ∧
      (∀ p ∈ st'.vm_objects, (p.2 : Wrapper).name = p.1) := by
  have hrefresh := refresh_cache_populated raw hpop
  cases ho : dictGet? st.vm_objects k with
  | some w =>
    refine ⟨w, st, ?_, hnames (k, w) (dictGet?_mem ho), hpop, hnames⟩
    simp only [getitem, vmContains, hrefresh, hpop, Option.getD_some, hmem, ho]
  | none =>
    obtain ⟨c, hc⟩ := Option.isSome_iff_exists.mp hclsk
    refine ⟨⟨k, c, st.nextUid⟩,
      ⟨st.vm_list, dictInsert st.vm_objects k ⟨k, c, st.nextUid⟩,
        st.nextUid + 1⟩, ?_, rfl, hpop, ?_⟩
    · simp only [getitem, vmContains, hrefresh, hpop, Option.getD_some, hmem,
        ho, hc]
    · intro p hp
      rcases mem_dictInsert hp with hp | hp
      · simp [hp]
      · exact hnames p hp

theorem getitem_populated_frame (raw k : String) {st : CollState}
    {L : List (String × VMProps)} (hpop : st.vm_list = some L) :
    (getitem raw k st).2.1.vm_list = some L ∧ (getitem raw k st).2.2 = [] := by
  have hrefresh := refresh_cache_populated raw hpop
  cases hb : (dictGet? (st.vm_list.getD []) k).isSome with
  | false =>
    constructor <;>
      simp only [getitem, vmContains, hrefresh, hb] <;> exact hpop
  | true =>
    cases ho : dictGet? st.vm_objects k with
    | some w =>
      constructor <;> simp only [getitem, vmContains, hrefresh, hb, ho]
      · exact hpop
    | none =>
      cases hcl : (dictGet? (st.vm_list.getD []) k).bind
          (fun props => dictGet? props "class") with
      | none =>
        constructor <;> simp only [getitem, vmContains, hrefresh, hb, ho, hcl]
        · exact hpop
      | some c =>
        constructor <;> simp only [getitem, vmContains, hrefresh, hb, ho, hcl]
        · exact hpop

theorem iterLoop_calls (raw : String) :
    ∀ (ks : List String) (st : CollState) (L : List (String × VMProps)),
      st.vm_list = some L → (iterLoop raw ks st).2.2 = []
  | [], _, _, _ => rfl
  | k :: rest, st, L, hpop => by
    have hframe := getitem_populated_frame raw k hpop
    rcases hgi : getitem raw k st with ⟨r, st', calls⟩
    rw [hgi] at hframe
    have hc : calls = [] := hframe.2
    have hp1 : st'.vm_list = some L := hframe.1
    cases r with
    | error e => simp [iterLoop, hgi, hc]
    | ok w =>
      rcases hloop : iterLoop raw rest st' with ⟨r2, st'', calls2⟩
      have hc2 : calls2 = [] := by
        have h := iterLoop_calls raw rest st' L hp1
        rw [hloop] at h
        exact h
      cases r2 with
      | error e => simp [iterLoop, hgi, hloop, hc, hc2]
      | ok ws => simp [iterLoop, hgi, hloop, hc, hc2]

theorem iterLoop_ok (raw : String) :
    ∀ (ks : List String) (st : CollState) (L : List (String × VMProps)),
      st.vm_list = some L →
      (∀ k ∈ ks, (dictGet? L k).isSome) →
      (∀ k ∈ ks, ((dictGet? L k).bind (fun pr => dictGet? pr "class")).isSome) →
      (∀ p ∈ st.vm_objects, (p.2 : Wrapper).name = p.1) →
      ∃ ws st', iterLoop raw ks st = (.ok ws, st', []) ∧
        ws.map Wrapper.name = ks
  | [], st, _, _, _, _, _ => ⟨[], st, rfl, rfl⟩
  | k :: rest, st, L, hpop, hmem, hcls, hnames => by
    obtain ⟨w, st1, hgi, hname, hpop1, hnames1⟩ :=
      getitem_populated raw k hpop (hmem k (List.mem_cons_self _ _))
        (hcls k (List.mem_cons_self _ _)) hnames
    obtain ⟨ws, st2, hloop, hws⟩ := iterLoop_ok raw rest st1 L hpop1
      (fun k2 hk2 => hmem k2 (List.mem_cons_of_mem _ hk2))
      (fun k2 hk2 => hcls k2 (List.mem_cons_of_mem _ hk2)) hnames1
    refine ⟨w :: ws, st2, ?_, by simp [hws, hname]⟩
    simp [iterLoop, hgi, hloop]

theorem iterVMs_calls_unpopulated (raw : String) {st : CollState}
    (h : st.vm_list = none) : (iterVMs raw st).2.2 = [.listVMs] := by
  cases hpr : parseVMListing raw with
  | none => simp [iterVMs, refresh_cache, h, hpr]
  | some records =>
    cases hrec : reconcileAux (dictOfRecords records) st.vm_objects
        st.vm_objects with
    | error e => simp [iterVMs, refresh_cache, h, hpr, hrec]
    | ok objs =>
      have hrefresh := refresh_cache_unpopulated_ok false (Or.inr h) hpr hrec
      simp only [iterVMs, hrefresh, Option.getD_some]
      rcases hlr : iterLoop raw (pySorted (dictKeys (dictOfRecords records)))
          ⟨some (dictOfRecords records), objs, st.nextUid⟩ with ⟨r2, st2, calls2⟩
      have hc2 : calls2 = [] := by
        have h2 := iterLoop_calls raw
          (pySorted (dictKeys (dictOfRecords records)))
          ⟨some (dictOfRecords records), objs, st.nextUid⟩
          (dictOfRecords records) rfl
        rw [hlr] at h2
        exact h2
      simp [hc2]

/-- C4: for every identity key absent from the latest refreshed listing,
indexed access on the VM collection raises `KeyError` — the state is
arbitrary, so in particular a wrapper for that identity may still sit in
`_vm_objects` from a previous refresh: the membership decision is made
against the refreshed `_vm_list`, never against the wrapper table — and
the call trace is at most the single refresh listing call. -/
theorem getitem_absent_raises_keyError (raw item : String)
    (st st1 : CollState) (calls : List AdminCall)
    (hrefresh : refresh_cache raw false st = (.ok st1, st1, calls))
    (habsent : dictGet? (st1.vm_list.getD []) item = none) :
    getitem raw item st = (.error (.keyError item), st1, calls) ∧
      calls.length ≤ 1 := by
  constructor
  · simp only [getitem, vmContains, hrefresh, habsent, Option.isSome_none]
  · have h := refresh_cache_calls_le_one raw false st
    rw [hrefresh] at h
    exact h

theorem getitem_absent_raises_keyError_witness :
    (refresh_cache "test-vm class=AppVM state=Running" false
        ⟨none, [("gone-vm", ⟨"gone-vm", "AppVM", 0⟩)], 1⟩ =
      (.ok ⟨some [("test-vm", [("class", "AppVM"), ("state", "Running")])],
          [], 1⟩,
        ⟨some [("test-vm", [("class", "AppVM"), ("state", "Running")])],
          [], 1⟩, [.listVMs]) ∧
     dictGet? ((⟨some [("test-vm", [("class", "AppVM"), ("state", "Running")])],
        [], 1⟩ : CollState).vm_list.getD []) "gone-vm" = none ∧
     dictGet? (⟨none, [("gone-vm", ⟨"gone-vm", "AppVM", 0⟩)],
        1⟩ : CollState).vm_objects "gone-vm" =
       some ⟨"gone-vm", "AppVM", 0⟩) ∧
    (getitem "test-vm class=AppVM state=Running" "gone-vm"
        ⟨none, [("gone-vm", ⟨"gone-vm", "AppVM", 0⟩)], 1⟩ =
      (.error (.keyError "gone-vm"),
        ⟨some [("test-vm", [("class", "AppVM"), ("state", "Running")])],
          [], 1⟩, [.listVMs]) ∧
     ([AdminCall.listVMs] : List AdminCall).length ≤ 1) :=
  ⟨⟨rfl, rfl, rfl⟩,
    getitem_absent_raises_keyError "test-vm class=AppVM state=Running"
      "gone-vm" ⟨none, [("gone-vm", ⟨"gone-vm", "AppVM", 0⟩)], 1⟩
      ⟨some [("test-vm", [("class", "AppVM"), ("state", "Running")])], [], 1⟩
      [.listVMs] rfl rfl⟩

/-- C7: deleting an entity issues the removal call to the daemon
(`qubesd_call(key, 'admin.vm.Remove')`) and then clears the entire cached
listing (leaving the wrapper table as it was), so that the next
collection access — membership test, lookup, or iteration — triggers
exactly one new listing call. -/
theorem delitem_clears_cache_one_listing_call (key raw item : String)
    (st : CollState) :
    delitem key st = (⟨none, st.vm_objects, st.nextUid⟩, [.removeVM key]) ∧
    (delitem key st).1.vm_list = none ∧
    (vmContains raw item (delitem key st).1).2.2 = [.listVMs] ∧
    (getitem raw item (delitem key st).1).2.2 = [.listVMs] ∧
    (iterVMs raw (delitem key st).1).2.2 = [.listVMs] := by
  refine ⟨rfl, rfl, ?_, ?_, ?_⟩
  · rw [vmContains_calls]
    exact refresh_cache_unpopulated_calls raw rfl
  · rw [getitem_calls]
    exact refresh_cache_unpopulated_calls raw rfl
  · exact iterVMs_calls_unpopulated raw rfl

/-- C9: `clear_cache` (and hence `__delitem__` through it) resets only
the cached listing and leaves the wrapper table untouched: for an
identity that appears with an unchanged class tag in the next refreshed
listing, a lookup after `clear_cache` returns the *identical* wrapper
object (same `uid`, i.e. the same Python object) that was cached
before the clear. -/
theorem clear_cache_preserves_wrappers (raw n : String) (st : CollState)
    (w : Wrapper) (records : List (String × VMProps))
    (hWF : (dictKeys st.vm_objects).Nodup ∧
      ∀ p ∈ st.vm_objects, (p.2 : Wrapper).name = p.1)
    (hw : dictGet? st.vm_objects n = some w)
    (hparse : parseVMListing raw = some records)
    (hclsAll : ∀ p ∈ dictOfRecords records, (dictGet? p.2 "class").isSome)
    (hsame : (dictGet? (dictOfRecords records) n).bind
      (fun pr => dictGet? pr "class") = some w.cls) :
    clear_cache st = ⟨none, st.vm_objects, st.nextUid⟩ ∧
    (getitem raw n (clear_cache st)).1 = .ok w := by
  obtain ⟨objs', hrec⟩ :=
    reconcileAux_ok (dictOfRecords records) hclsAll st.vm_objects st.vm_objects
  have hget : dictGet? objs' n = dictGet? st.vm_objects n := by
    have h := reconcileAux_get_mem (dictOfRecords records) st.vm_objects
      st.vm_objects objs' n w hWF.1 hWF.2 hWF.1 (dictGet?_mem hw) hrec
    rw [h, if_pos hsame]
  have hrefresh : refresh_cache raw false (clear_cache st) =
      (.ok ⟨some (dictOfRecords records), objs', st.nextUid⟩,
        ⟨some (dictOfRecords records), objs', st.nextUid⟩, [.listVMs]) :=
    refresh_cache_unpopulated_ok false (Or.inr rfl) hparse hrec
  obtain ⟨pr, hpr, hprc⟩ := Option.bind_eq_some.mp hsame
  have hobj : dictGet? objs' n = some w := hget.trans hw
  refine ⟨rfl, ?_⟩
  simp [getitem, vmContains, hrefresh, hpr, hobj]

theorem clear_cache_preserves_wrappers_witness :
    (((dictKeys ([("test-vm", ⟨"test-vm", "AppVM", 7⟩)] :
          List (String × Wrapper))).Nodup ∧
      ∀ p ∈ ([("test-vm", ⟨"test-vm", "AppVM", 7⟩)] :
          List (String × Wrapper)), (p.2 : Wrapper).name = p.1) ∧
     dictGet? ([("test-vm", ⟨"test-vm", "AppVM", 7⟩)] :
        List (String × Wrapper)) "test-vm" = some ⟨"test-vm", "AppVM", 7⟩ ∧
     parseVMListing "test-vm class=AppVM" =
       some [("test-vm", [("class", "AppVM")])] ∧
     (∀ p ∈ dictOfRecords [("test-vm", [("class", "AppVM")])],
       (dictGet? p.2 "class").isSome) ∧
     (dictGet? (dictOfRecords [("test-vm", [("class", "AppVM")])])
         "test-vm").bind (fun pr => dictGet? pr "class") =
       some (Wrapper.mk "test-vm" "AppVM" 7).cls) ∧
    (clear_cache ⟨some [("test-vm", [("class", "AppVM")])],
        [("test-vm", ⟨"test-vm", "AppVM", 7⟩)], 8⟩ =
      ⟨none, [("test-vm", ⟨"test-vm", "AppVM", 7⟩)], 8⟩ ∧
     (getitem "test-vm class=AppVM" "test-vm"
        (clear_cache ⟨some [("test-vm", [("class", "AppVM")])],
          [("test-vm", ⟨"test-vm", "AppVM", 7⟩)], 8⟩)).1 =
       .ok ⟨"test-vm", "AppVM", 7⟩) :=
  ⟨⟨⟨by decide, by decide⟩, by decide, by decide, by decide, by decide⟩,
    clear_cache_preserves_wrappers "test-vm class=AppVM" "test-vm"
      ⟨some [("test-vm", [("class", "AppVM")])],
        [("test-vm", ⟨"test-vm", "AppVM", 7⟩)], 8⟩
      ⟨"test-vm", "AppVM", 7⟩ [("test-vm", [("class", "AppVM")])]
      ⟨by decide, by decide⟩ (by decide) (by decide) (by decide) (by decide)⟩

/-- C6: after `refresh_cache(force=True)`, a previously cached wrapper
whose recorded class tag differs from the class tag the new listing
records for its name is removed from the wrapper table; the subsequent
lookup of that name constructs a fresh wrapper carrying the new class
tag, and that wrapper is a different object from the old one (the old
wrapper is gone from the cache and is not what the collection returns). -/
theorem refresh_force_discards_changed_class (raw n : String)
    (st : CollState) (w : Wrapper) (cNew : String)
    (records : List (String × VMProps))
    (hWF : (dictKeys st.vm_objects).Nodup ∧
      ∀ p ∈ st.vm_objects, (p.2 : Wrapper).name = p.1)
    (hw : dictGet? st.vm_objects n = some w)
    (hparse : parseVMListing raw = some records)
    (hclsAll : ∀ p ∈ dictOfRecords records, (dictGet? p.2 "class").isSome)
    (hnew : (dictGet? (dictOfRecords records) n).bind
      (fun pr => dictGet? pr "class") = some cNew)
    (hne : cNew ≠ w.cls) :
    ∃ objs',
      refresh_cache raw true st =
        (.ok ⟨some (dictOfRecords records), objs', st.nextUid⟩,
          ⟨some (dictOfRecords records), objs', st.nextUid⟩, [.listVMs]) ∧
      dictGet? objs' n = none ∧
      getitem raw n ⟨some (dictOfRecords records), objs', st.nextUid⟩ =
        (.ok ⟨n, cNew, st.nextUid⟩,
          ⟨some (dictOfRecords records),
            dictInsert objs' n ⟨n, cNew, st.nextUid⟩, st.nextUid + 1⟩, []) ∧
      (⟨n, cNew, st.nextUid⟩ : Wrapper) ≠ w := by
  obtain ⟨objs', hrec⟩ :=
    reconcileAux_ok (dictOfRecords records) hclsAll st.vm_objects st.vm_objects
  have hrefresh := refresh_cache_unpopulated_ok true (Or.inl rfl) hparse hrec
  have hgone : dictGet? objs' n = none := by
    have h := reconcileAux_get_mem (dictOfRecords records) st.vm_objects
      st.vm_objects objs' n w hWF.1 hWF.2 hWF.1 (dictGet?_mem hw) hrec
    rw [h, if_neg]
    rw [hnew]
    simp [hne]
  obtain ⟨pr, hpr, hprc⟩ := Option.bind_eq_some.mp hnew
  have hrefresh2 : refresh_cache raw false
      ⟨some (dictOfRecords records), objs', st.nextUid⟩ =
      (.ok ⟨some (dictOfRecords records), objs', st.nextUid⟩,
        ⟨some (dictOfRecords records), objs', st.nextUid⟩, []) :=
    refresh_cache_populated raw rfl
  refine ⟨objs', hrefresh, hgone, ?_, ?_⟩
  · simp [getitem, vmContains, hrefresh2, hpr, hgone, hprc]
  · intro he
    exact hne (congrArg Wrapper.cls he)

theorem refresh_force_discards_changed_class_witness :
    (((dictKeys ([("test-vm", ⟨"test-vm", "AppVM", 0⟩)] :
          List (String × Wrapper))).Nodup ∧
      ∀ p ∈ ([("test-vm", ⟨"test-vm", "AppVM", 0⟩)] :
          List (String × Wrapper)), (p.2 : Wrapper).name = p.1) ∧
     dictGet? ([("test-vm", ⟨"test-vm", "AppVM", 0⟩)] :
        List (String × Wrapper)) "test-vm" = some ⟨"test-vm", "AppVM", 0⟩ ∧
     parseVMListing "test-vm class=StandaloneVM" =
       some [("test-vm", [("class", "StandaloneVM")])] ∧
     (∀ p ∈ dictOfRecords [("test-vm", [("class", "StandaloneVM")])],
       (dictGet? p.2 "class").isSome) ∧
     (dictGet? (dictOfRecords [("test-vm", [("class", "StandaloneVM")])])
         "test-vm").bind (fun pr => dictGet? pr "class") =
       some "StandaloneVM" ∧
     "StandaloneVM" ≠ (Wrapper.mk "test-vm" "AppVM" 0).cls) ∧
    (∃ objs',
      refresh_cache "test-vm class=StandaloneVM" true
          ⟨some [("test-vm", [("class", "AppVM")])],
            [("test-vm", ⟨"test-vm", "AppVM", 0⟩)], 1⟩ =
        (.ok ⟨some (dictOfRecords [("test-vm", [("class", "StandaloneVM")])]),
            objs', 1⟩,
          ⟨some (dictOfRecords [("test-vm", [("class", "StandaloneVM")])]),
            objs', 1⟩, [.listVMs]) ∧
      dictGet? objs' "test-vm" = none ∧
      getitem "test-vm class=StandaloneVM" "test-vm"
          ⟨some (dictOfRecords [("test-vm", [("class", "StandaloneVM")])]),
            objs', 1⟩ =
        (.ok ⟨"test-vm", "StandaloneVM", 1⟩,
          ⟨some (dictOfRecords [("test-vm", [("class", "StandaloneVM")])]),
            dictInsert objs' "test-vm" ⟨"test-vm", "StandaloneVM", 1⟩, 2⟩,
          []) ∧
      (⟨"test-vm", "StandaloneVM", 1⟩ : Wrapper) ≠
        ⟨"test-vm", "AppVM", 0⟩) :=
  ⟨⟨⟨by decide, by decide⟩, by decide, by decide, by decide, by decide,
      by decide⟩,
    refresh_force_discards_changed_class "test-vm class=StandaloneVM"
      "test-vm"
      ⟨some [("test-vm", [("class", "AppVM")])],
        [("test-vm", ⟨"test-vm", "AppVM", 0⟩)], 1⟩
      ⟨"test-vm", "AppVM", 0⟩ "StandaloneVM"
      [("test-vm", [("class", "StandaloneVM")])]
      ⟨by decide, by decide⟩ (by decide) (by decide) (by decide) (by decide)
      (by decide)⟩

/-- C5: for every well-formed listing of N records (each line parses,
identity keys distinct, each record carrying a class tag), iterating the
VM collection from an unpopulated cache yields exactly those N
identities, each exactly once, in ascending code-point lexicographic
order of identity key — and the resulting name sequence is the canonical
sort of the record names, so it does not depend on the order of records
in the raw listing (any permutation of the names sorts to the same
sequence). -/
theorem iterVMs_sorted (raw : String) (st : CollState)
    (records : List (String × VMProps))
    (hun : st.vm_list = none)
    (hnames : ∀ p ∈ st.vm_objects, (p.2 : Wrapper).name = p.1)
    (hparse : parseVMListing raw = some records)
    (hnd : (records.map Prod.fst).Nodup)
    (hcls : ∀ r ∈ records, (dictGet? (Prod.snd r) "class").isSome) :
    ∃ ws st', iterVMs raw st = (.ok ws, st', [.listVMs]) ∧
      ws.map Wrapper.name = pySorted (records.map Prod.fst) ∧
      (ws.map Wrapper.name).Perm (records.map Prod.fst) ∧
      (ws.map Wrapper.name).Nodup ∧
      List.Pairwise (fun a b => pyStrLe a b = true ∧ a ≠ b)
        (ws.map Wrapper.name) ∧
      (∀ names₂, names₂.Perm (records.map Prod.fst) →
        pySorted names₂ = ws.map Wrapper.name) := by
  have heq : dictOfRecords records = records := dictOfRecords_eq_self hnd
  have hclsAll : ∀ p ∈ dictOfRecords records,
      (dictGet? p.2 "class").isSome := by
    rw [heq]
    exact hcls
  obtain ⟨objs', hrec⟩ :=
    reconcileAux_ok (dictOfRecords records) hclsAll st.vm_objects st.vm_objects
  have hrefresh := refresh_cache_unpopulated_ok false (Or.inr hun) hparse hrec
  have hkeys : dictKeys (dictOfRecords records) = records.map Prod.fst := by
    rw [heq]
    rfl
  have hmemsort : ∀ k ∈ pySorted (records.map Prod.fst),
      k ∈ records.map Prod.fst :=
    fun k hk => (pySorted_perm _).subset hk
  have hmem : ∀ k ∈ pySorted (records.map Prod.fst),
      (dictGet? (dictOfRecords records) k).isSome := by
    intro k hk
    rw [dictGet?_isSome_iff_mem_keys, hkeys]
    exact hmemsort k hk
  have hclsk : ∀ k ∈ pySorted (records.map Prod.fst),
      ((dictGet? (dictOfRecords records) k).bind
        (fun pr => dictGet? pr "class")).isSome := by
    intro k hk
    obtain ⟨pr, hpr⟩ := Option.isSome_iff_exists.mp (hmem k hk)
    rw [hpr]
    have hin : (k, pr) ∈ records := by
      have hm := dictGet?_mem hpr
      rw [heq] at hm
      exact hm
    simpa using hcls (k, pr) hin
  have hnames' : ∀ p ∈ objs', (p.2 : Wrapper).name = p.1 :=
    fun p hp => hnames p
      (reconcileAux_mem _ st.vm_objects st.vm_objects objs' p hnames hrec hp)
  obtain ⟨ws, st2, hloop, hws⟩ := iterLoop_ok raw
    (pySorted (records.map Prod.fst))
    ⟨some (dictOfRecords records), objs', st.nextUid⟩ (dictOfRecords records)
    rfl hmem hclsk hnames'
  refine ⟨ws, st2, ?_, hws, ?_, ?_, ?_, ?_⟩
  · simp [iterVMs, hrefresh, hkeys, hloop]
  · rw [hws]
    exact pySorted_perm _
  · rw [hws]
    exact ((pySorted_perm _).nodup_iff).mpr hnd
  · rw [hws]
    exact pySorted_pairwise_strict hnd
  · intro names₂ hp2
    rw [hws]
    exact pySorted_eq_of_perm hp2

theorem iterVMs_sorted_witness :
    ((⟨none, [], 0⟩ : CollState).vm_list = none ∧
     (∀ p ∈ (⟨none, [], 0⟩ : CollState).vm_objects,
       (p.2 : Wrapper).name = p.1) ∧
     parseVMListing "b-vm class=AppVM\na-vm class=StandaloneVM" =
       some [("b-vm", [("class", "AppVM")]),
         ("a-vm", [("class", "StandaloneVM")])] ∧
     ((([("b-vm", [("class", "AppVM")]),
        ("a-vm", [("class", "StandaloneVM")])] :
          List (String × VMProps)).map Prod.fst).Nodup) ∧
     (∀ r ∈ [("b-vm", [("class", "AppVM")]),
        ("a-vm", [("class", "StandaloneVM")])],
       (dictGet? (Prod.snd r) "class").isSome)) ∧
    (∃ ws st',
      iterVMs "b-vm class=AppVM\na-vm class=StandaloneVM" ⟨none, [], 0⟩ =
        (.ok ws, st', [.listVMs]) ∧
      ws.map Wrapper.name =
        pySorted ([("b-vm", [("class", "AppVM")]),
          ("a-vm", [("class", "StandaloneVM")])].map Prod.fst) ∧
      (ws.map Wrapper.name).Perm
        ([("b-vm", [("class", "AppVM")]),
          ("a-vm", [("class", "StandaloneVM")])].map Prod.fst) ∧
      (ws.map Wrapper.name).Nodup ∧
      List.Pairwise (fun a b => pyStrLe a b = true ∧ a ≠ b)
        (ws.map Wrapper.name) ∧
      (∀ names₂, names₂.Perm
          ([("b-vm", [("class", "AppVM")]),
            ("a-vm", [("class", "StandaloneVM")])].map Prod.fst) →
        pySorted names₂ = ws.map Wrapper.name)) :=
  ⟨⟨rfl, by decide, by decide, by decide, by decide⟩,
    iterVMs_sorted "b-vm class=AppVM\na-vm class=StandaloneVM" ⟨none, [], 0⟩
      [("b-vm", [("class", "AppVM")]), ("a-vm", [("class", "StandaloneVM")])]
      rfl (by decide) (by decide) (by decide) (by decide)⟩

/-- C10: constructing a `Volume` with both identity schemes supplied
(pool+vid as well as vm+vm_name) raises no error, and `_qubesd_call` for
such a volume uses the vm-based scheme exclusively — method tag
`admin.vm.volume.<func>`, destination the owning vm, argument `vm_name`,
payload passed through unmodified (no `vid` prepended) — the pool-based
identity is ignored for calls. Moreover a `ValueError` is raised exactly
when neither pool nor vm is given, when pool is given without vid, or
when vm is given without vm_name. -/
theorem volume_both_schemes_vm_wins (p vid vm vmn func : String)
    (payload : Option (List Nat)) :
    Volume.init (some p) (some vid) (some vm) (some vmn) =
      .ok ⟨some p, some vid, some vm, some vmn⟩ ∧
    Volume._qubesd_call ⟨some p, some vid, some vm, some vmn⟩ func payload =
      ⟨vm, "admin.vm.volume." ++ func, some vmn, payload⟩ ∧
    ∀ (pool vid2 vm2 vmn2 : Option String),
      (∃ e, Volume.init pool vid2 vm2 vmn2 = .error e) ↔
        ((pool = none ∧ vm2 = none) ∨ (pool ≠ none ∧ vid2 = none) ∨
          (vm2 ≠ none ∧ vmn2 = none)) := by
  refine ⟨by simp [Volume.init], rfl, ?_⟩
  intro pool vid2 vm2 vmn2
  constructor
  · rintro ⟨e, he⟩
    by_cases h1 : pool = none ∧ vm2 = none
    · exact Or.inl h1
    by_cases h2 : pool ≠ none ∧ vid2 = none
    · exact Or.inr (Or.inl h2)
    by_cases h3 : vm2 ≠ none ∧ vmn2 = none
    · exact Or.inr (Or.inr h3)
    · simp [Volume.init, h1, h2, h3] at he
  · rintro (h | h | h)
    · exact ⟨.valueError "Either pool or vm must be given",
        by simp [Volume.init, h.1, h.2]⟩
    · by_cases h1 : vm2 = none
      · exact ⟨.valueError "If pool is given, vid must be too.",
          by simp [Volume.init, h.1, h.2, h1]⟩
      · exact ⟨.valueError "If pool is given, vid must be too.",
          by simp [Volume.init, h.1, h.2, h1]⟩
    · by_cases h2 : pool ≠ none ∧ vid2 = none
      · exact ⟨.valueError "If pool is given, vid must be too.",
          by simp [Volume.init, h2.1, h2.2]⟩
      · exact ⟨.valueError "If vm is given, vm_name must be too.",
          by simp [Volume.init, h.1, h.2, h2]⟩
